import Mathlib

/-!
Verification of the beszel monitoring platform core (agent stats cache,
hub SSH key handling, health probe, and the alert-scheduling engine of
the alerts package) against its natural-language specification.

Shallow embedding conventions:
* Time is modelled in whole seconds as `Nat`; Go `time.Duration` values
  are converted at 60 seconds per minute.
* File and network effects are modelled by explicit state records and by
  oracle parameters for the outcomes of external calls (dialing, record
  expansion, notification delivery, key generation).
* `sync.Map` is modelled as an association list keyed by rule id, with
  store = remove-then-append and delete = filter, which preserves the
  map semantics (iteration order of `sync.Map.Range` is unspecified in Go).
-/

namespace Beszel

/-! ### Agent stats collector (src/beszel/internal/agent/agent.go) -/

/-- Opaque stand-in for `system.CombinedData`: the claims about
`gatherStats` concern only the caching policy, never the snapshot
contents, so the collected payload is abstracted to a single tag. -/
structure CombinedData where
  payload : Nat
deriving DecidableEq, Repr

/-- Mutable agent fields read and written by `gatherStats`:
`a.sshUser`, `a.updated` (none = zero `time.Time`, i.e. never updated,
for which `time.Since` far exceeds the cache window) and `a.data`
(always a non-nil pointer after `NewAgent`, hence `some` in practice). -/
structure AgentState where
  sshUser : String
  updated : Option Nat
  data : Option CombinedData
deriving DecidableEq, Repr

/-- `const cacheTime = 60 * time.Second`, in seconds. -/
def cacheTime : Nat := 60

/-- `time.Since(a.updated) < cacheTime` at clock value `now` (monotone
clock, so `now` is at least any recorded update instant). -/
def cacheFresh (now : Nat) (updated : Option Nat) : Bool :=
  match updated with
  | some t => now - t < cacheTime
  | none => false

/-- `Agent.gatherStats` (agent.go lines 110-142). The freshly collected
payload (the combined result of `getSystemStats`, docker stats and extra
filesystems) is supplied by the `collect` argument. Returns the snapshot
handed to the caller, the successor state, and whether a fresh
collection was performed (`false` = cached return). -/
def gatherStats (collect : CombinedData) (now : Nat) (user : String) (a : AgentState) :
    CombinedData × AgentState × Bool :=
  if h : cacheFresh now a.updated = true ∧ user ≠ a.sshUser ∧ a.data.isSome = true then
    (a.data.get h.2.2, a, false)
  else
    (collect, ⟨user, some now, some collect⟩, true)

/-! ### Hub SSH key pair (hub package, `Hub.GetSSHKey`) -/

/-- `strings.TrimSuffix s suf`: drops one occurrence of the suffix. -/
def trimSuffixStr (s suf : String) : String :=
  if s.endsWith suf then s.dropRight suf.length else s

/-- Hub state touched by `GetSSHKey`: contents of
`dataDir/id_ed25519` and `dataDir/id_ed25519.pub` (`none` means the
file is absent or unreadable), plus the in-memory `h.pubKey` field. -/
structure HubState where
  privFile : Option String
  pubFile : Option String
  pubKey : String
deriving DecidableEq, Repr

/-- Result of `GetSSHKey`: returned private key bytes, whether a new
key pair was generated, and the successor hub/filesystem state. -/
structure SSHKeyOut where
  key : Option String
  generated : Bool
  state : HubState
deriving DecidableEq, Repr

/-- `Hub.GetSSHKey`. `genPriv`/`genPub` are the marshalled private and
public halves produced by `ed25519.GenerateKey` on the generation path;
file writes are modelled as always succeeding (the error branches only
propagate failures and are not the subject of any claim). -/
def GetSSHKey (genPriv genPub : String) (h : HubState) : SSHKeyOut :=
  match h.privFile with
  | some existingKey =>
    match h.pubFile with
    | some p => ⟨some existingKey, false, { h with pubKey := trimSuffixStr p "\n" }⟩
    | none => ⟨some existingKey, false, h⟩
  | none =>
    ⟨some genPriv, true,
      { privFile := some genPriv, pubFile := some genPub,
        pubKey := trimSuffixStr genPub "\n" }⟩

/-! ### Agent liveness probe (src/beszel/internal/agent/health.go) -/

/-- `Health` (health.go lines 12-22). The configured network and address
(resolved by `GetAddress`/`GetNetwork`, outside the collected sources)
are passed in, together with an oracle for the outcome of
`net.DialTimeout`; the function exchanges no data on the connection and
performs no authentication — it only maps the dial outcome to an exit
code. -/
def Health (network addr : String) (dial : String → String → Except String Unit) : Nat :=
  match dial network addr with
  | .error _ => 1
  | .ok _ => 0

/-! ### Hub public-key endpoint (`Hub.registerApiRoutes`) -/

/-- Handler body of `GET /api/beszel/getkey`: `auth` is
`e.RequestInfo().Auth` (none = unauthenticated); on success the response
is the pair (public key, version). -/
def getKeyHandler (auth : Option String) (pubKey version : String) :
    Except String (String × String) :=
  match auth with
  | none => .error "Forbidden"
  | some _ => .ok (pubKey, version)

/-! ### `AlertManager.sendStatusAlert` (alerts package) -/

/-- `AlertMessageData` as filled in by `sendStatusAlert`. -/
structure AlertMessageData where
  userID : String
  title : String
  message : String
  link : String
  linkText : String
deriving DecidableEq, Repr

/-- The message payload `sendStatusAlert` builds for a resolved user:
status emoji, title, message (title with the emoji trimmed), link with
the path-escaped system name, link text. `esc` is `url.PathEscape`. -/
def mkStatusAlertData (alertStatus systemName appURL userId : String)
    (esc : String → String) : AlertMessageData :=
  let emoji := if alertStatus == "up" then "✅" else "🔴"
  let title := "Connection to " ++ systemName ++ " is " ++ alertStatus ++ " " ++ emoji
  ⟨userId, title, trimSuffixStr title emoji,
    appURL ++ "/system/" ++ esc systemName, "View " ++ systemName⟩

/-- `AlertManager.sendStatusAlert` (part_000 lines 161-187).
`expandUser` is the outcome of `app.ExpandRecord` followed by
`ExpandedOne("user")`: an expansion error, or the optional user id.
`sendAlert` is the collaborator delivery call; `some e` is a delivery
error, `none` success. Returns the function's error result (`none` =
nil error) and the message handed to `sendAlert`, if any. -/
def sendStatusAlert (alertStatus systemName appURL : String) (esc : String → String)
    (expandUser : Except String (Option String))
    (sendAlert : AlertMessageData → Option String) :
    Option String × Option AlertMessageData :=
  match expandUser with
  | .error e => (some e, none)
  | .ok none => (none, none)
  | .ok (some userId) =>
    let d := mkStatusAlertData alertStatus systemName appURL userId esc
    (sendAlert d, some d)

/-! ### Alert engine state machine (alerts package, part_000)

The `AlertManager` owns a `sync.Map` of pending alerts keyed by alert
record id, a task channel, and the worker goroutine
`statusAlertWorker`. The engine is embedded as a state record plus one
transition function per source operation; executions are sequences of
steps (handler invocations, worker task dequeues, sweep ticks). -/

/-- The "Status" alert record fields the engine reads: its id and the
configured minimum duration (`alertRecord.GetInt("min")`, a Go int). -/
structure AlertRule where
  id : String
  ruleMin : Int
deriving DecidableEq, Repr

/-- `alertTask.action` ("schedule" or "cancel"). -/
inductive TaskAction
  | schedule
  | cancel
deriving DecidableEq, Repr

/-- `alertTask`: one message on `am.alertQueue`. -/
structure AlertTask where
  action : TaskAction
  systemName : String
  ruleId : String
  delay : Nat
deriving DecidableEq, Repr

/-- `alertInfo`: one pending-alert entry (`expireTime` in seconds). -/
structure AlertInfo where
  systemName : String
  ruleId : String
  expireTime : Nat
deriving DecidableEq, Repr

/-- One call to `sendStatusAlert` made by the engine, recorded as
(status, system name, alert record id). -/
structure Notification where
  status : String
  systemName : String
  ruleId : String
deriving DecidableEq, Repr

/-- `AlertManager` mutable state: the pending-alerts map
(`am.pendingAlerts`), the task queue (`am.alertQueue`, FIFO), and the
log of notifications the engine has sent. -/
structure AMState where
  pending : List (String × AlertInfo)
  queue : List AlertTask
  sent : List Notification
deriving DecidableEq, Repr

/-- Fresh `AlertManager` state: empty map, empty queue, nothing sent. -/
def initState : AMState := ⟨[], [], []⟩

/-- `am.pendingAlerts.Load k`. -/
def pendingLoad (m : List (String × AlertInfo)) (k : String) : Option AlertInfo :=
  (m.find? (fun p => p.1 == k)).map Prod.snd

/-- `am.pendingAlerts.Store k v` (insert or replace). -/
def pendingStore (m : List (String × AlertInfo)) (k : String) (v : AlertInfo) :
    List (String × AlertInfo) :=
  m.filter (fun p => p.1 != k) ++ [(k, v)]

/-- `am.pendingAlerts.Delete k`. -/
def pendingDelete (m : List (String × AlertInfo)) (k : String) :
    List (String × AlertInfo) :=
  m.filter (fun p => p.1 != k)

/-- `handleSystemDown`'s delay computation, in seconds:
`min := max(1, alertRecord.GetInt("min"))`;
`delayToNotification := time.Duration(min)*time.Minute + time.Second*10`. -/
def delayToNotification (minCfg : Int) : Nat :=
  (max 1 minCfg).toNat * 60 + 10

/-- The schedule task `handleSystemDown` enqueues for one rule. -/
def scheduleTask (systemName : String) (r : AlertRule) : AlertTask :=
  ⟨.schedule, systemName, r.id, delayToNotification r.ruleMin⟩

/-- The worker's handling of one dequeued `alertTask`
(`statusAlertWorker`, "schedule" and "cancel" cases): a schedule stores
an entry expiring at `time.Now().Add(task.delay)`, a cancel deletes the
entry. `now` is the worker's clock when the task is processed. -/
def runTask (now : Nat) (t : AlertTask) (s : AMState) : AMState :=
  match t.action with
  | .schedule =>
    { s with pending := pendingStore s.pending t.ruleId ⟨t.systemName, t.ruleId, now + t.delay⟩ }
  | .cancel =>
    { s with pending := pendingDelete s.pending t.ruleId }

/-- One iteration of the worker loop that dequeues from `am.alertQueue`
(no-op when the queue is empty). -/
def workerStepTask (now : Nat) (s : AMState) : AMState :=
  match s.queue with
  | [] => s
  | t :: rest => runTask now t { s with queue := rest }

/-- `now.After(info.expireTime)` for one pending entry. -/
def expired (now : Nat) (p : String × AlertInfo) : Bool :=
  decide (p.2.expireTime < now)

/-- The worker's tick case (`statusAlertWorker`, `<-tick`): every entry
whose expiry has passed is processed — `sendStatusAlert("down", ...)`
then `Delete` — and the rest are kept. -/
def sweep (now : Nat) (s : AMState) : AMState :=
  { s with
    pending := s.pending.filter (fun p => !(expired now p)),
    sent := s.sent ++ (s.pending.filter (expired now)).map
      (fun p => ⟨"down", p.2.systemName, p.2.ruleId⟩) }

/-- The `statusChanged` switch of `HandleStatusAlerts`. -/
def statusChanged (newStatus oldStatus : String) : Bool :=
  if newStatus == "up" then oldStatus == "down"
  else if newStatus == "down" then oldStatus == "up"
  else false

/-- `AlertManager.handleSystemDown` (part_000 lines 117-137): for each
rule, skip it if an entry is already pending, otherwise enqueue a
schedule task with the computed delay. -/
def handleSystemDown (systemName : String) (rules : List AlertRule) (s : AMState) : AMState :=
  match rules with
  | [] => s
  | r :: rest =>
    if (pendingLoad s.pending r.id).isSome then
      handleSystemDown systemName rest s
    else
      handleSystemDown systemName rest { s with queue := s.queue ++ [scheduleTask systemName r] }

/-- `AlertManager.handleSystemUp` (part_000 lines 141-158): for each
rule, if an entry is pending enqueue a cancel task (down alert not
sent), otherwise send an "up" alert immediately (the cancel task in the
source carries only the record, so its other fields are zero values). -/
def handleSystemUp (systemName : String) (rules : List AlertRule) (s : AMState) : AMState :=
  match rules with
  | [] => s
  | r :: rest =>
    if (pendingLoad s.pending r.id).isSome then
      handleSystemUp systemName rest { s with queue := s.queue ++ [⟨.cancel, "", r.id, 0⟩] }
    else
      handleSystemUp systemName rest { s with sent := s.sent ++ [⟨"up", systemName, r.id⟩] }

/-- `AlertManager.HandleStatusAlerts` (part_000 lines 73-101). `rules`
is the result of `getSystemStatusAlerts` (all "Status" alert records for
the system); the database error path returns without touching engine
state and is not modelled. -/
def HandleStatusAlerts (newStatus oldStatus systemName : String) (rules : List AlertRule)
    (s : AMState) : AMState :=
  if !(statusChanged newStatus oldStatus) then s
  else if rules.isEmpty then s
  else if newStatus == "down" then handleSystemDown systemName rules s
  else if newStatus == "up" then handleSystemUp systemName rules s
  else s

/-- One step of an interleaved execution: a status-change event handled
by `HandleStatusAlerts` (its `time` field records when the transition
happened; the handler itself does not read the clock), one worker
dequeue, or one sweep tick. Task and tick steps may interleave with
events in any order, as in the running system. -/
inductive Step
  | event (newStatus oldStatus systemName : String) (rules : List AlertRule) (time : Nat)
  | task (now : Nat)
  | tick (now : Nat)
deriving DecidableEq, Repr

/-- Apply one execution step. -/
def runStep (stp : Step) (s : AMState) : AMState :=
  match stp with
  | .event ns os sys rules _t => HandleStatusAlerts ns os sys rules s
  | .task now => workerStepTask now s
  | .tick now => sweep now s

/-- An interleaved execution: apply the steps in order. -/
def runSteps (steps : List Step) (s : AMState) : AMState :=
  steps.foldl (fun st stp => runStep stp st) s

/-- Drain the task queue at clock value `now`: the worker processes
every queued task in arrival order before anything else happens. -/
def drainQueue (now : Nat) (s : AMState) : AMState :=
  s.queue.foldl (fun st t => runTask now t st) { s with queue := [] }

/-- Operations of a prompt-worker execution, in which the worker drains
the task queue as soon as a handler has enqueued tasks (no sweep tick
can overtake a queued cancel/schedule request). -/
inductive SOp
  | status (newStatus oldStatus systemName : String) (rules : List AlertRule) (time : Nat)
  | sweepAt (time : Nat)
deriving DecidableEq, Repr

/-- Apply one prompt-worker operation. -/
def srunStep (op : SOp) (s : AMState) : AMState :=
  match op with
  | .status ns os sys rules t => drainQueue t (HandleStatusAlerts ns os sys rules s)
  | .sweepAt t => sweep t s

/-- A prompt-worker execution: apply the operations in order. -/
def srun (ops : List SOp) (s : AMState) : AMState :=
  ops.foldl (fun st op => srunStep op st) s

/-- There is at most one pending entry per rule id: the keys of the
association list are distinct. -/
def keysNodup (m : List (String × AlertInfo)) : Prop :=
  (m.map Prod.fst).Nodup

/-- A step is an up-transition event. -/
def isUpEvent : Step → Bool
  | .event ns _ _ _ _ => ns == "up"
  | _ => false

/-! ### Lemmas about the pending-alerts map -/

theorem find?_filter_key_none (m : List (String × AlertInfo)) (k : String) :
    (m.filter (fun p => p.1 != k)).find? (fun p => p.1 == k) = none := by
  rw [List.find?_eq_none]
  intro p hp
  simp only [List.mem_filter, bne_iff_ne] at hp
  simp only [beq_iff_eq]
  exact hp.2

theorem find?_filter_ne (m : List (String × AlertInfo)) (k k' : String) (h : k' ≠ k) :
    (m.filter (fun p => p.1 != k)).find? (fun p => p.1 == k') =
      m.find? (fun p => p.1 == k') := by
  induction m with
  | nil => rfl
  | cons p rest ih =>
    rw [List.filter_cons]
    by_cases hc : p.1 = k
    · have hbne : (p.1 != k) = false := by simp [hc]
      have hbk : (p.1 == k') = false := by
        rw [beq_eq_false_iff_ne, hc]
        exact fun hh => h hh.symm
      rw [hbne, if_neg Bool.false_ne_true, ih]
      simp only [List.find?_cons, hbk]
    · have hbne : (p.1 != k) = true := by simp [hc]
      rw [hbne, if_pos rfl]
      simp only [List.find?_cons]
      cases hpk : (p.1 == k') <;> simp only [hpk, ih]

theorem pendingLoad_store_self (m : List (String × AlertInfo)) (k : String) (v : AlertInfo) :
    pendingLoad (pendingStore m k v) k = some v := by
  unfold pendingLoad pendingStore
  rw [List.find?_append, find?_filter_key_none]
  simp [List.find?]

theorem pendingLoad_store_ne (m : List (String × AlertInfo)) (k k' : String) (v : AlertInfo)
    (h : k' ≠ k) : pendingLoad (pendingStore m k v) k' = pendingLoad m k' := by
  unfold pendingLoad pendingStore
  rw [List.find?_append]
  have hbk : ¬((((k, v) : String × AlertInfo)).1 == k') = true := by
    simp only [beq_iff_eq]
    exact fun hh => h hh.symm
  have h2 : List.find? (fun p => p.1 == k') [(k, v)] = none :=
    List.find?_cons_of_neg [] hbk
  rw [h2, find?_filter_ne m k k' h]
  cases m.find? (fun p => p.1 == k') <;> rfl

theorem pendingLoad_singleton_self (k : String) (v : AlertInfo) :
    pendingLoad [(k, v)] k = some v := by
  simp [pendingLoad, List.find?]

theorem pendingDelete_singleton_self (k : String) (v : AlertInfo) :
    pendingDelete [(k, v)] k = [] := by
  simp [pendingDelete]

/-! ### Key uniqueness is preserved by every map operation -/

theorem keysNodup_nil : keysNodup [] := List.nodup_nil

theorem keysNodup_filter (m : List (String × AlertInfo)) (f : String × AlertInfo → Bool)
    (h : keysNodup m) : keysNodup (m.filter f) :=
  ((List.filter_sublist m).map Prod.fst).nodup h

theorem keysNodup_store (m : List (String × AlertInfo)) (k : String) (v : AlertInfo)
    (h : keysNodup m) : keysNodup (pendingStore m k v) := by
  unfold keysNodup pendingStore
  rw [List.map_append]
  refine List.Nodup.append (keysNodup_filter m _ h) (by simp) ?_
  intro x hx hmem
  simp only [List.map_cons, List.map_nil, List.mem_singleton] at hmem
  subst hmem
  simp only [List.mem_map, List.mem_filter, bne_iff_ne] at hx
  obtain ⟨p, ⟨_, hpk⟩, hfst⟩ := hx
  exact hpk hfst

/-! ### Characterization of the handlers and the worker -/

theorem runTask_sent (now : Nat) (tk : AlertTask) (s : AMState) :
    (runTask now tk s).sent = s.sent := by
  obtain ⟨act, a, b, c⟩ := tk
  cases act <;> rfl

theorem runTask_queue (now : Nat) (tk : AlertTask) (s : AMState) :
    (runTask now tk s).queue = s.queue := by
  obtain ⟨act, a, b, c⟩ := tk
  cases act <;> rfl

theorem runTask_schedule_eq (now : Nat) (tk : AlertTask) (s : AMState)
    (hact : tk.action = TaskAction.schedule) :
    runTask now tk s
      = { s with pending :=
            pendingStore s.pending tk.ruleId ⟨tk.systemName, tk.ruleId, now + tk.delay⟩ } := by
  obtain ⟨act, a, b, c⟩ := tk
  cases hact
  rfl

theorem runTask_keysNodup (now : Nat) (tk : AlertTask) (s : AMState)
    (h : keysNodup s.pending) : keysNodup (runTask now tk s).pending := by
  obtain ⟨act, a, b, c⟩ := tk
  cases act
  · exact keysNodup_store _ _ _ h
  · exact keysNodup_filter _ _ h

theorem workerStepTask_sent (now : Nat) (s : AMState) :
    (workerStepTask now s).sent = s.sent := by
  obtain ⟨p, q, n⟩ := s
  cases q with
  | nil => rfl
  | cons tk rest => exact runTask_sent now tk _

theorem workerStepTask_keysNodup (now : Nat) (s : AMState) (h : keysNodup s.pending) :
    keysNodup (workerStepTask now s).pending := by
  obtain ⟨p, q, n⟩ := s
  cases q with
  | nil => exact h
  | cons tk rest => exact runTask_keysNodup now tk _ h

theorem handleSystemDown_pending (sys : String) (rules : List AlertRule) (s : AMState) :
    (handleSystemDown sys rules s).pending = s.pending := by
  induction rules generalizing s with
  | nil => rfl
  | cons r rest ih =>
    unfold handleSystemDown
    by_cases h : (pendingLoad s.pending r.id).isSome = true
    · rw [if_pos h]; exact ih s
    · rw [if_neg h]; exact ih _

theorem handleSystemDown_sent (sys : String) (rules : List AlertRule) (s : AMState) :
    (handleSystemDown sys rules s).sent = s.sent := by
  induction rules generalizing s with
  | nil => rfl
  | cons r rest ih =>
    unfold handleSystemDown
    by_cases h : (pendingLoad s.pending r.id).isSome = true
    · rw [if_pos h]; exact ih s
    · rw [if_neg h]; exact ih _

theorem handleSystemUp_pending (sys : String) (rules : List AlertRule) (s : AMState) :
    (handleSystemUp sys rules s).pending = s.pending := by
  induction rules generalizing s with
  | nil => rfl
  | cons r rest ih =>
    unfold handleSystemUp
    by_cases h : (pendingLoad s.pending r.id).isSome = true
    · rw [if_pos h]; exact ih _
    · rw [if_neg h]; exact ih _

theorem handleSystemUp_single_pending (sys : String) (r : AlertRule) (s : AMState)
    (h : (pendingLoad s.pending r.id).isSome = true) :
    handleSystemUp sys [r] s = { s with queue := s.queue ++ [⟨.cancel, "", r.id, 0⟩] } := by
  simp [handleSystemUp, h]

theorem handleSystemUp_single_none (sys : String) (r : AlertRule) (s : AMState)
    (h : (pendingLoad s.pending r.id).isSome = false) :
    handleSystemUp sys [r] s = { s with sent := s.sent ++ [⟨"up", sys, r.id⟩] } := by
  simp [handleSystemUp, h]

theorem pendingLoad_delete_self (m : List (String × AlertInfo)) (k : String) :
    pendingLoad (pendingDelete m k) k = none := by
  unfold pendingLoad pendingDelete
  rw [find?_filter_key_none]
  rfl

theorem pendingLoad_delete_ne (m : List (String × AlertInfo)) (k k' : String)
    (h : k' ≠ k) : pendingLoad (pendingDelete m k) k' = pendingLoad m k' := by
  unfold pendingLoad pendingDelete
  rw [find?_filter_ne m k k' h]

theorem runTask_cancel_eq (now : Nat) (tk : AlertTask) (s : AMState)
    (hact : tk.action = TaskAction.cancel) :
    runTask now tk s = { s with pending := pendingDelete s.pending tk.ruleId } := by
  obtain ⟨act, a, b, c⟩ := tk
  cases hact
  rfl

theorem foldl_runTask_sent (now : Nat) (ts : List AlertTask) (st : AMState) :
    (ts.foldl (fun a tk => runTask now tk a) st).sent = st.sent := by
  induction ts generalizing st with
  | nil => rfl
  | cons tk rest ih =>
    rw [List.foldl_cons, ih, runTask_sent]

theorem load_none_cancel_foldl (now : Nat) (ts : List AlertTask) (st : AMState) (k : String)
    (hall : ∀ tk ∈ ts, tk.action = TaskAction.cancel)
    (h : pendingLoad st.pending k = none) :
    pendingLoad (ts.foldl (fun a tk => runTask now tk a) st).pending k = none := by
  induction ts generalizing st with
  | nil => exact h
  | cons tk rest ih =>
    have hact : tk.action = TaskAction.cancel := hall tk (List.mem_cons_self _ _)
    show pendingLoad
        ((rest.foldl (fun a t => runTask now t a) (runTask now tk st))).pending k = none
    refine ih (runTask now tk st) (fun t' ht' => hall t' (List.mem_cons_of_mem _ ht')) ?_
    rw [runTask_cancel_eq now tk st hact]
    show pendingLoad (pendingDelete st.pending tk.ruleId) k = none
    by_cases he : tk.ruleId = k
    · rw [he, pendingLoad_delete_self]
    · rw [pendingLoad_delete_ne _ _ _ (fun hk => he hk.symm)]
      exact h

theorem load_after_cancel_foldl (now : Nat) (ts : List AlertTask) (st : AMState) (k : String)
    (hall : ∀ tk ∈ ts, tk.action = TaskAction.cancel)
    (hmem : ∃ tk ∈ ts, tk.ruleId = k) :
    pendingLoad (ts.foldl (fun a tk => runTask now tk a) st).pending k = none := by
  induction ts generalizing st with
  | nil =>
    obtain ⟨tk, htk, _⟩ := hmem
    exact absurd htk (List.not_mem_nil _)
  | cons tk rest ih =>
    have hact : tk.action = TaskAction.cancel := hall tk (List.mem_cons_self _ _)
    show pendingLoad
        ((rest.foldl (fun a t => runTask now t a) (runTask now tk st))).pending k = none
    by_cases he : tk.ruleId = k
    · apply load_none_cancel_foldl now rest _ k
        (fun t' ht' => hall t' (List.mem_cons_of_mem _ ht'))
      rw [runTask_cancel_eq now tk st hact]
      show pendingLoad (pendingDelete st.pending tk.ruleId) k = none
      rw [he, pendingLoad_delete_self]
    · rcases hmem with ⟨t', ht', hid⟩
      rcases List.mem_cons.mp ht' with rfl | ht'
      · exact absurd hid he
      · exact ih (runTask now tk st)
          (fun t2 ht2 => hall t2 (List.mem_cons_of_mem _ ht2)) ⟨t', ht', hid⟩

theorem handleSystemUp_cons (sys : String) (r : AlertRule) (rest : List AlertRule)
    (s : AMState) :
    handleSystemUp sys (r :: rest) s =
      if (pendingLoad s.pending r.id).isSome then
        handleSystemUp sys rest
          { s with queue := s.queue ++ [⟨TaskAction.cancel, "", r.id, 0⟩] }
      else
        handleSystemUp sys rest { s with sent := s.sent ++ [⟨"up", sys, r.id⟩] } :=
  rfl

theorem handleSystemUp_spec_general (sys : String) (rules : List AlertRule) (s : AMState) :
    handleSystemUp sys rules s =
      { s with
        queue := s.queue
          ++ (rules.filter (fun r => (pendingLoad s.pending r.id).isSome)).map
            (fun r => (⟨TaskAction.cancel, "", r.id, 0⟩ : AlertTask)),
        sent := s.sent
          ++ (rules.filter (fun r => !(pendingLoad s.pending r.id).isSome)).map
            (fun r => (⟨"up", sys, r.id⟩ : Notification)) } := by
  induction rules generalizing s with
  | nil =>
    obtain ⟨p, q, n⟩ := s
    show ({ pending := p, queue := q, sent := n } : AMState) = _
    simp
  | cons r rest ih =>
    obtain ⟨p, q, n⟩ := s
    rw [handleSystemUp_cons]
    by_cases h : (pendingLoad p r.id).isSome = true
    · have hne : pendingLoad p r.id ≠ none := Option.isSome_iff_ne_none.mp h
      rw [if_pos h, ih]
      simp [List.filter_cons, h, hne, List.append_assoc]
    · have hb : (pendingLoad p r.id).isSome = false := by simpa using h
      have heq : pendingLoad p r.id = none := Option.not_isSome_iff_eq_none.mp h
      rw [if_neg h, ih]
      simp [List.filter_cons, hb, heq, List.append_assoc]

theorem up_event_drain (sys : String) (rules : List AlertRule) (s : AMState) (t : Nat)
    (hq : s.queue = []) :
    (∀ r ∈ rules, (pendingLoad s.pending r.id).isSome = true →
        pendingLoad (drainQueue t (handleSystemUp sys rules s)).pending r.id = none)
  ∧ (drainQueue t (handleSystemUp sys rules s)).sent
      = s.sent ++ (rules.filter (fun r => !(pendingLoad s.pending r.id).isSome)).map
          (fun r => (⟨"up", sys, r.id⟩ : Notification)) := by
  obtain ⟨p, q, n⟩ := s
  have hq' : q = [] := hq
  subst hq'
  rw [handleSystemUp_spec_general]
  constructor
  · intro r hr hsome
    show pendingLoad
        (((rules.filter (fun r => (pendingLoad p r.id).isSome)).map
            (fun r => (⟨TaskAction.cancel, "", r.id, 0⟩ : AlertTask))).foldl
          (fun a tk => runTask t tk a)
          ⟨p, [],
            n ++ (rules.filter (fun r => !(pendingLoad p r.id).isSome)).map
              (fun r => (⟨"up", sys, r.id⟩ : Notification))⟩).pending r.id = none
    apply load_after_cancel_foldl
    · intro tk htk
      rcases List.mem_map.mp htk with ⟨r', _, rfl⟩
      rfl
    · exact ⟨⟨TaskAction.cancel, "", r.id, 0⟩,
        List.mem_map.mpr ⟨r, List.mem_filter.mpr ⟨hr, hsome⟩, rfl⟩, rfl⟩
  · show (((rules.filter (fun r => (pendingLoad p r.id).isSome)).map
        (fun r => (⟨TaskAction.cancel, "", r.id, 0⟩ : AlertTask))).foldl
          (fun a tk => runTask t tk a)
          ⟨p, [],
            n ++ (rules.filter (fun r => !(pendingLoad p r.id).isSome)).map
              (fun r => (⟨"up", sys, r.id⟩ : Notification))⟩).sent = _
    rw [foldl_runTask_sent]

theorem HandleStatusAlerts_pending (ns os sys : String) (rules : List AlertRule) (s : AMState) :
    (HandleStatusAlerts ns os sys rules s).pending = s.pending := by
  unfold HandleStatusAlerts
  split
  · rfl
  · split
    · rfl
    · split
      · exact handleSystemDown_pending sys rules s
      · split
        · exact handleSystemUp_pending sys rules s
        · rfl

theorem HandleStatusAlerts_sent_of_ne_up (ns os sys : String) (rules : List AlertRule)
    (s : AMState) (h : ns ≠ "up") :
    (HandleStatusAlerts ns os sys rules s).sent = s.sent := by
  unfold HandleStatusAlerts
  split
  · rfl
  · split
    · rfl
    · split
      · exact handleSystemDown_sent sys rules s
      · split
        · rename_i hup
          exact absurd (by simpa using hup) h
        · rfl

theorem HandleStatusAlerts_down_up (sys : String) (rules : List AlertRule) (s : AMState) :
    HandleStatusAlerts "down" "up" sys rules s = handleSystemDown sys rules s := by
  cases rules with
  | nil => rfl
  | cons r rest => rfl

theorem HandleStatusAlerts_up_down (sys : String) (rules : List AlertRule) (s : AMState) :
    HandleStatusAlerts "up" "down" sys rules s = handleSystemUp sys rules s := by
  cases rules with
  | nil => rfl
  | cons r rest => rfl

theorem handleSystemDown_cons (sys : String) (r : AlertRule) (rest : List AlertRule)
    (s : AMState) :
    handleSystemDown sys (r :: rest) s =
      if (pendingLoad s.pending r.id).isSome then handleSystemDown sys rest s
      else handleSystemDown sys rest { s with queue := s.queue ++ [scheduleTask sys r] } :=
  rfl

theorem handleSystemDown_spec (sys : String) (rules : List AlertRule) (s : AMState) :
    ∃ ts : List AlertTask,
      handleSystemDown sys rules s = { s with queue := s.queue ++ ts }
      ∧ (∀ tk ∈ ts, tk.action = TaskAction.schedule)
      ∧ (∀ r ∈ rules,
          (pendingLoad s.pending r.id).isSome = true ∨ ∃ tk ∈ ts, tk.ruleId = r.id) := by
  induction rules generalizing s with
  | nil =>
    refine ⟨[], ?_, ?_, ?_⟩
    · show s = { s with queue := s.queue ++ [] }
      cases s
      simp
    · intro tk htk; exact absurd htk (List.not_mem_nil _)
    · intro r hr; exact absurd hr (List.not_mem_nil _)
  | cons r rest ih =>
    by_cases h : (pendingLoad s.pending r.id).isSome = true
    · obtain ⟨ts, he, hall, hcov⟩ := ih s
      refine ⟨ts, ?_, hall, ?_⟩
      · rw [handleSystemDown_cons, if_pos h]
        exact he
      · intro r' hr'
        rcases List.mem_cons.mp hr' with rfl | hr'
        · exact Or.inl h
        · exact hcov r' hr'
    · obtain ⟨ts, he, hall, hcov⟩ := ih { s with queue := s.queue ++ [scheduleTask sys r] }
      refine ⟨scheduleTask sys r :: ts, ?_, ?_, ?_⟩
      · rw [handleSystemDown_cons, if_neg h, he]
        cases s
        simp
      · intro tk htk
        rcases List.mem_cons.mp htk with rfl | htk
        · rfl
        · exact hall tk htk
      · intro r' hr'
        rcases List.mem_cons.mp hr' with rfl | hr'
        · exact Or.inr ⟨scheduleTask sys r', List.mem_cons_self _ _, rfl⟩
        · rcases hcov r' hr' with hc | ⟨tk, htk, hid⟩
          · exact Or.inl hc
          · exact Or.inr ⟨tk, List.mem_cons_of_mem _ htk, hid⟩

theorem load_after_schedule_foldl (now : Nat) (ts : List AlertTask) (st : AMState) (k : String)
    (hall : ∀ tk ∈ ts, tk.action = TaskAction.schedule)
    (h : (pendingLoad st.pending k).isSome = true ∨ ∃ tk ∈ ts, tk.ruleId = k) :
    (pendingLoad (ts.foldl (fun a tk => runTask now tk a) st).pending k).isSome = true := by
  induction ts generalizing st with
  | nil =>
    rcases h with h | ⟨tk, htk, _⟩
    · simpa using h
    · exact absurd htk (List.not_mem_nil _)
  | cons tk rest ih =>
    have hact : tk.action = TaskAction.schedule := hall tk (List.mem_cons_self _ _)
    show (pendingLoad
        ((rest.foldl (fun a t => runTask now t a) (runTask now tk st))).pending k).isSome = true
    refine ih (runTask now tk st) (fun t' ht' => hall t' (List.mem_cons_of_mem _ ht')) ?_
    rw [runTask_schedule_eq now tk st hact]
    by_cases he : tk.ruleId = k
    · left
      show (pendingLoad (pendingStore st.pending tk.ruleId
        ⟨tk.systemName, tk.ruleId, now + tk.delay⟩) k).isSome = true
      rw [← he, pendingLoad_store_self]
      rfl
    · rcases h with h | ⟨t', ht', hid⟩
      · left
        show (pendingLoad (pendingStore st.pending tk.ruleId
          ⟨tk.systemName, tk.ruleId, now + tk.delay⟩) k).isSome = true
        rw [pendingLoad_store_ne _ _ _ _ (fun hk => he hk.symm)]
        exact h
      · rcases List.mem_cons.mp ht' with rfl | ht'
        · exact absurd hid he
        · exact Or.inr ⟨t', ht', hid⟩

/-! ### Lemmas about executions -/

theorem drainQueue_of_queue_nil (now : Nat) (s : AMState) (hq : s.queue = []) :
    drainQueue now s = s := by
  obtain ⟨p, q, n⟩ := s
  have hq' : q = [] := hq
  subst hq'
  rfl

theorem sweep_eq_self (now : Nat) (s : AMState)
    (h : ∀ p ∈ s.pending, ¬ p.2.expireTime < now) : sweep now s = s := by
  unfold sweep
  have h1 : s.pending.filter (fun p => !(expired now p)) = s.pending :=
    List.filter_eq_self.mpr (fun p hp => by simp [expired, h p hp])
  have h2 : s.pending.filter (expired now) = [] :=
    List.filter_eq_nil_iff.mpr (fun p hp => by simp [expired, h p hp])
  rw [h1, h2]
  cases s
  simp

theorem sweep_keysNodup (now : Nat) (s : AMState) (h : keysNodup s.pending) :
    keysNodup (sweep now s).pending :=
  keysNodup_filter _ _ h

theorem runStep_keysNodup (stp : Step) (s : AMState) (h : keysNodup s.pending) :
    keysNodup (runStep stp s).pending := by
  cases stp with
  | event ns os sys rules t =>
    show keysNodup (HandleStatusAlerts ns os sys rules s).pending
    rw [HandleStatusAlerts_pending]
    exact h
  | task now => exact workerStepTask_keysNodup now s h
  | tick now => exact sweep_keysNodup now s h

theorem runSteps_keysNodup (steps : List Step) (s : AMState) (h : keysNodup s.pending) :
    keysNodup (runSteps steps s).pending := by
  induction steps generalizing s with
  | nil => exact h
  | cons stp rest ih => exact ih _ (runStep_keysNodup stp s h)

theorem srun_append (a b : List SOp) (s : AMState) :
    srun (a ++ b) s = srun b (srun a s) := by
  unfold srun
  exact List.foldl_append _ _ _ _

theorem srun_sweeps_eq (ts : List Nat) (s : AMState) (h : ∀ t ∈ ts, sweep t s = s) :
    srun (ts.map SOp.sweepAt) s = s := by
  induction ts with
  | nil => rfl
  | cons t rest ih =>
    have h1 : srun ((SOp.sweepAt t :: rest.map SOp.sweepAt) : List SOp) s
        = srun (rest.map SOp.sweepAt) (sweep t s) := rfl
    rw [List.map_cons, h1, h t (List.mem_cons_self _ _)]
    exact ih (fun t' ht' => h t' (List.mem_cons_of_mem _ ht'))

/-! ### Claim C1 -/

/-- C1, counterexample. The claim states that within the 60-second
window a call whose requester identity matches the recorded previous
identity returns the cached Snapshot verbatim, and a differing identity
forces fresh collection. The code (`user != a.sshUser` in the cache
condition) does the opposite: at 30 seconds after a collection recorded
for user "hub1", a second "hub1" call performs a fresh collection and
returns the new data, while a "hub2" call is served from the cache. -/
theorem gatherStats_same_user_collects_fresh :
    (gatherStats ⟨1⟩ 30 "hub1" ⟨"hub1", some 0, some ⟨0⟩⟩).2.2 = true
  ∧ (gatherStats ⟨1⟩ 30 "hub1" ⟨"hub1", some 0, some ⟨0⟩⟩).1 = ⟨1⟩
  ∧ (30 : Nat) - 0 < cacheTime
  ∧ (gatherStats ⟨1⟩ 30 "hub2" ⟨"hub1", some 0, some ⟨0⟩⟩).2.2 = false := by
  decide

/-- C1, amended: for two `gatherStats` calls less than 60 seconds
apart, a second call whose requester identity differs from the identity
recorded by the previous collection returns the cached Snapshot
verbatim without re-collecting (state unchanged), while a call whose
identity matches the recorded identity performs a fresh collection and
re-records identity, time and data. -/
theorem gatherStats_cache_policy (collect : CombinedData) (now t : Nat) (u : String)
    (a : AgentState) (hupd : a.updated = some t) (hlt : now - t < cacheTime)
    (hdat : a.data.isSome = true) :
    (u ≠ a.sshUser → gatherStats collect now u a = (a.data.get hdat, a, false))
  ∧ (u = a.sshUser → gatherStats collect now u a = (collect, ⟨u, some now, some collect⟩, true)) := by
  have hcf : cacheFresh now a.updated = true := by
    rw [hupd]
    simpa [cacheFresh] using hlt
  constructor
  · intro hne
    unfold gatherStats
    rw [dif_pos ⟨hcf, hne, hdat⟩]
  · intro heq
    unfold gatherStats
    rw [dif_neg (fun hcontra => hcontra.2.1 heq)]

/-- C1 witness: at 30 seconds after a collection recorded for "hub1"
with cached data tagged 7, a "hub2" request is answered from the cache
with the state untouched, and a "hub1" request collects afresh. -/
theorem gatherStats_cache_policy_witness :
    gatherStats ⟨5⟩ 30 "hub2" ⟨"hub1", some 0, some ⟨7⟩⟩
      = (⟨7⟩, ⟨"hub1", some 0, some ⟨7⟩⟩, false)
  ∧ gatherStats ⟨5⟩ 30 "hub1" ⟨"hub1", some 0, some ⟨7⟩⟩
      = (⟨5⟩, ⟨"hub1", some 30, some ⟨5⟩⟩, true) := by
  constructor
  · exact (gatherStats_cache_policy ⟨5⟩ 30 0 "hub2" ⟨"hub1", some 0, some ⟨7⟩⟩ rfl
      (by decide) rfl).1 (by decide)
  · exact (gatherStats_cache_policy ⟨5⟩ 30 0 "hub1" ⟨"hub1", some 0, some ⟨7⟩⟩ rfl
      (by decide) rfl).2 rfl

/-! ### Claim C2 -/

/-- C2, counterexample. The claim states a new key pair is generated if
and only if both key files are absent, and that the public half is
loaded in every case. In the code the generation test reads only the
private file: with the private file absent but a public file present, a
new pair is generated anyway; and with the private file present but the
public file absent, `h.pubKey` is left untouched (not loaded). -/
theorem GetSSHKey_regenerates_with_pub_present :
    (GetSSHKey "NEWPRIV" "NEWPUB\n" ⟨none, some "OLDPUB\n", ""⟩).generated = true
  ∧ (some "OLDPUB\n" ≠ (none : Option String))
  ∧ (GetSSHKey "K" "P\n" ⟨some "PRIV", none, "old"⟩).state.pubKey = "old" := by
  refine ⟨rfl, by decide, rfl⟩

/-- C2, amended: `GetSSHKey` generates a new key pair if and only if
the private key file is absent (regardless of the public file); when
the private file exists its contents are returned unchanged; the
in-memory public key is loaded from the public file when both files
exist, left unchanged when the private file exists but the public file
is absent, and set to the freshly generated public half whenever the
private file is absent. -/
theorem GetSSHKey_spec (genPriv genPub : String) (h : HubState) :
    (GetSSHKey genPriv genPub h).generated = h.privFile.isNone
  ∧ (GetSSHKey genPriv genPub h).key = some (h.privFile.getD genPriv)
  ∧ (GetSSHKey genPriv genPub h).state.pubKey =
      (match h.privFile, h.pubFile with
       | some _, some p => trimSuffixStr p "\n"
       | some _, none => h.pubKey
       | none, _ => trimSuffixStr genPub "\n") := by
  obtain ⟨p1, p2, pk⟩ := h
  cases p1 <;> cases p2 <;> exact ⟨rfl, rfl, rfl⟩

/-! ### Claim C8 -/

/-- C8: the liveness probe returns exit code 0 if and only if dialing
the configured network and address succeeds, and exit code 1 if and
only if the dial fails; the probe's result depends on nothing but the
dial outcome (no data is exchanged and no authentication performed). -/
theorem health_exit_code (network addr : String)
    (dial : String → String → Except String Unit) :
    (Health network addr dial = 0 ↔ ∃ u, dial network addr = Except.ok u)
  ∧ (Health network addr dial = 1 ↔ ∃ e, dial network addr = Except.error e) := by
  unfold Health
  rcases hd : dial network addr with e | u
  · simp [hd]
  · simp [hd]

/-! ### Claim C9 -/

/-- C9: the public-key endpoint returns a Forbidden error — and no key
material — for every unauthenticated request, and returns the public
key together with the version exactly when an authenticated identity is
present. -/
theorem getkey_requires_auth (pubKey version : String) :
    (getKeyHandler none pubKey version = Except.error "Forbidden")
  ∧ (∀ u : String, getKeyHandler (some u) pubKey version = Except.ok (pubKey, version)) :=
  ⟨rfl, fun _ => rfl⟩

/-! ### Claim C10 -/

/-- C10, counterexample. The claim states an error is returned only
when the expansion of the user reference fails; but `sendStatusAlert`
ends with `return am.sendAlert(...)`, so with a successfully expanded
user a delivery failure is also returned as an error. -/
theorem sendStatusAlert_delivery_error :
    (sendStatusAlert "up" "web" "http://x" id (Except.ok (some "u1"))
        (fun _ => some "delivery failed")).1 = some "delivery failed" := rfl

/-- C10, amended: when the rule's user reference expands to no user
record, `sendStatusAlert` sends nothing and returns success; when the
expansion itself fails the expansion error is returned and nothing is
sent; and when a user is resolved the built message is handed to
`sendAlert` and that delivery outcome (possibly an error) is returned.
Hence an error is returned only on expansion failure or on delivery
failure for a resolved user. -/
theorem sendStatusAlert_spec (alertStatus systemName appURL : String)
    (esc : String → String) (sendAlert : AlertMessageData → Option String) :
    (sendStatusAlert alertStatus systemName appURL esc (Except.ok none) sendAlert = (none, none))
  ∧ (∀ e, sendStatusAlert alertStatus systemName appURL esc (Except.error e) sendAlert
      = (some e, none))
  ∧ (∀ u, sendStatusAlert alertStatus systemName appURL esc (Except.ok (some u)) sendAlert
      = (sendAlert (mkStatusAlertData alertStatus systemName appURL u esc),
         some (mkStatusAlertData alertStatus systemName appURL u esc))) :=
  ⟨rfl, fun _ => rfl, fun _ => rfl⟩

/-! ### Claim C3 -/

/-- C3, counterexample. The claim includes a host whose previous status
was "pending" among the down-transition events that schedule a
PendingAlert for each associated rule. But `HandleStatusAlerts` treats
a "down" event as a status change only when the previous status was
"up": delivered with previous status "pending" and one Status rule, the
engine state is completely untouched — nothing is scheduled. -/
theorem pending_status_down_no_schedule :
    HandleStatusAlerts "down" "pending" "h1" [⟨"r1", 5⟩] initState = initState
  ∧ (srunStep (SOp.status "down" "pending" "h1" [⟨"r1", 5⟩] 0) initState).pending = [] :=
  ⟨rfl, rfl⟩

/-- C3, amended: for every down-transition event whose previous status
is "up", once the worker has processed the handler's queued requests, a
PendingAlert entry exists for every associated Status rule (rules
already pending keep their entry; the others are newly scheduled). A
down event with any other previous status — including "pending" —
schedules nothing. -/
theorem down_transition_schedules_all (sys : String) (rules : List AlertRule) (s : AMState)
    (t : Nat) (hq : s.queue = []) :
    ∀ r ∈ rules,
      (pendingLoad (srunStep (SOp.status "down" "up" sys rules t) s).pending r.id).isSome
        = true := by
  intro r hr
  show (pendingLoad
      (drainQueue t (HandleStatusAlerts "down" "up" sys rules s)).pending r.id).isSome = true
  rw [HandleStatusAlerts_down_up]
  obtain ⟨ts, he, hall, hcov⟩ := handleSystemDown_spec sys rules s
  rw [he, hq]
  show (pendingLoad
      (ts.foldl (fun a tk => runTask t tk a) { s with queue := [] }).pending r.id).isSome = true
  exact load_after_schedule_foldl t ts { s with queue := [] } r.id hall (hcov r hr)

/-- C3 witness: a down event with previous status "up" on a fresh
engine leaves a PendingAlert for the rule. -/
theorem down_transition_schedules_all_witness :
    (pendingLoad (srunStep (SOp.status "down" "up" "h1" [⟨"r1", 2⟩] 0) initState).pending
      "r1").isSome = true :=
  down_transition_schedules_all "h1" [⟨"r1", 2⟩] initState 0 rfl ⟨"r1", 2⟩ (by decide)

/-! ### Claim C4 -/

/-- C4: for every rule with configured minimum `min`, the PendingAlert
stored for a down-transition processed at time `t` expires at
`t + (max 1 min) * 60 + 10` seconds, i.e. the delay from scheduling to
expiry is exactly max(1, min) minutes plus a 10-second buffer. -/
theorem pending_alert_delay (sys : String) (r : AlertRule) (s : AMState) (t : Nat)
    (hq : s.queue = []) (hnp : pendingLoad s.pending r.id = none) :
    pendingLoad (srunStep (SOp.status "down" "up" sys [r] t) s).pending r.id =
      some ⟨sys, r.id, t + ((max 1 r.ruleMin).toNat * 60 + 10)⟩ := by
  have hns : (pendingLoad s.pending r.id).isSome = false := by rw [hnp]; rfl
  show pendingLoad
      (drainQueue t (HandleStatusAlerts "down" "up" sys [r] s)).pending r.id = _
  rw [HandleStatusAlerts_down_up]
  have hD : handleSystemDown sys [r] s = { s with queue := s.queue ++ [scheduleTask sys r] } := by
    rw [handleSystemDown_cons, if_neg (by simp [hns])]
    rfl
  rw [hD, hq]
  show pendingLoad
      (pendingStore s.pending r.id ⟨sys, r.id, t + delayToNotification r.ruleMin⟩) r.id = _
  rw [pendingLoad_store_self]
  rfl

/-- C4 witness: a rule with minimum 5 scheduled at time 100 expires at
410 = 100 + 5 minutes + 10 seconds. -/
theorem pending_alert_delay_witness :
    pendingLoad (srunStep (SOp.status "down" "up" "h1" [⟨"r1", 5⟩] 100) initState).pending "r1"
      = some ⟨"h1", "r1", 410⟩ :=
  pending_alert_delay "h1" ⟨"r1", 5⟩ initState 100 rfl rfl

/-! ### Claim C5 -/

/-- C5: in every execution the pending-alerts map holds at most one
entry per rule id (its keys are distinct), and a schedule request
(`handleSystemDown`) for a rule that already has a pending entry is a
no-op: the engine state — that entry's expiry included — is returned
unchanged. -/
theorem pending_unique_and_schedule_idempotent (steps : List Step) (sys : String)
    (r : AlertRule) (s : AMState) (h : (pendingLoad s.pending r.id).isSome = true) :
    keysNodup (runSteps steps initState).pending ∧ handleSystemDown sys [r] s = s := by
  refine ⟨runSteps_keysNodup steps initState (by simp [keysNodup, initState]), ?_⟩
  rw [handleSystemDown_cons, if_pos h]
  rfl

/-- C5 witness: after an arbitrary concrete execution the map keys are
distinct, and scheduling an already-pending rule changes nothing. -/
theorem pending_unique_and_schedule_idempotent_witness :
    keysNodup (runSteps [Step.event "down" "up" "h1" [⟨"r1", 1⟩] 0, Step.task 0,
        Step.tick 5] initState).pending
  ∧ handleSystemDown "h1" [⟨"r1", 1⟩] ⟨[("r1", ⟨"h1", "r1", 70⟩)], [], []⟩
      = ⟨[("r1", ⟨"h1", "r1", 70⟩)], [], []⟩ :=
  pending_unique_and_schedule_idempotent
    [Step.event "down" "up" "h1" [⟨"r1", 1⟩] 0, Step.task 0, Step.tick 5]
    "h1" ⟨"r1", 1⟩ ⟨[("r1", ⟨"h1", "r1", 70⟩)], [], []⟩ (by decide)

/-! ### Claim C6 -/

/-- C6: for every up-transition event (previous status "down") with
any list of associated rules, once the worker has processed the queued
cancels: every rule that had a Scheduled PendingAlert has its entry
removed, and the notifications sent are exactly one "up" notification
for each rule that had no Scheduled entry and none for the rules that
had one. Moreover, for every engine state and every step — handler
event, worker task dequeue or sweep tick — any "up" notification not
already present before the step can only have been produced by an
up-transition event: up events are the only path that sends a recovery
notice. -/
theorem up_transition_spec (sys : String) (rules : List AlertRule) (s : AMState) (t : Nat)
    (hq : s.queue = []) :
    (∀ r ∈ rules, (pendingLoad s.pending r.id).isSome = true →
        pendingLoad (srunStep (SOp.status "up" "down" sys rules t) s).pending r.id = none)
  ∧ ((srunStep (SOp.status "up" "down" sys rules t) s).sent
      = s.sent ++ (rules.filter (fun r => !(pendingLoad s.pending r.id).isSome)).map
          (fun r => (⟨"up", sys, r.id⟩ : Notification)))
  ∧ (∀ (s' : AMState) (stp : Step), ∀ n ∈ (runStep stp s').sent, n.status = "up" →
      n ∈ s'.sent ∨ isUpEvent stp = true) := by
  obtain ⟨ha, hb⟩ := up_event_drain sys rules s t hq
  refine ⟨?_, ?_, ?_⟩
  · intro r hr hsome
    show pendingLoad
        (drainQueue t (HandleStatusAlerts "up" "down" sys rules s)).pending r.id = none
    rw [HandleStatusAlerts_up_down]
    exact ha r hr hsome
  · show (drainQueue t (HandleStatusAlerts "up" "down" sys rules s)).sent = _
    rw [HandleStatusAlerts_up_down]
    exact hb
  · intro s' stp n hn hup
    cases stp with
    | event ns os sys2 rules2 t2 =>
      by_cases hns : ns = "up"
      · right
        simp [isUpEvent, hns]
      · left
        rw [show runStep (Step.event ns os sys2 rules2 t2) s'
            = HandleStatusAlerts ns os sys2 rules2 s' from rfl,
          HandleStatusAlerts_sent_of_ne_up ns os sys2 rules2 s' hns] at hn
        exact hn
    | task now =>
      left
      rwa [show runStep (Step.task now) s' = workerStepTask now s' from rfl,
        workerStepTask_sent] at hn
    | tick now =>
      left
      rw [show runStep (Step.tick now) s' = sweep now s' from rfl] at hn
      unfold sweep at hn
      simp only [List.mem_append, List.mem_map] at hn
      rcases hn with h1 | ⟨p, _, hp⟩
      · exact h1
      · rw [← hp] at hup
        have hds : ("down" : String) = "up" := hup
        exact absurd hds (by decide)

/-- C6 witness: an up event for two rules, one with a pending entry and
one without: the entry is removed, and exactly one "up" notification —
for the rule without an entry — is sent. -/
theorem up_transition_spec_witness :
    pendingLoad (srunStep (SOp.status "up" "down" "h1" [⟨"r1", 1⟩, ⟨"r2", 3⟩] 50)
        ⟨[("r1", ⟨"h1", "r1", 70⟩)], [], []⟩).pending "r1" = none
  ∧ (srunStep (SOp.status "up" "down" "h1" [⟨"r1", 1⟩, ⟨"r2", 3⟩] 50)
        ⟨[("r1", ⟨"h1", "r1", 70⟩)], [], []⟩).sent = [⟨"up", "h1", "r2"⟩] := by
  constructor
  · exact (up_transition_spec "h1" [⟨"r1", 1⟩, ⟨"r2", 3⟩]
      ⟨[("r1", ⟨"h1", "r1", 70⟩)], [], []⟩ 50 rfl).1 ⟨"r1", 1⟩ (by decide) (by decide)
  · have hb := (up_transition_spec "h1" [⟨"r1", 1⟩, ⟨"r2", 3⟩]
      ⟨[("r1", ⟨"h1", "r1", 70⟩)], [], []⟩ 50 rfl).2.1
    rw [hb]
    decide

/-! ### Claim C7 -/

/-- C7, counterexample. The claim asserts that in every execution where
the up-transition follows the down-transition in less than
M minutes + 10 seconds, no "down" notification is ever sent. The
documented cancel/sweep race refutes it: with minimum 1 (delay 70 s),
down at 0 (schedule processed at 0, expiry 70), up at 69 — within the
window, 69 < 70 — the cancel sits in the queue while a sweep tick at 71
fires the "down" notification before the worker dequeues the cancel. -/
theorem down_fires_despite_short_outage :
    (runSteps [Step.event "down" "up" "h1" [⟨"r1", 1⟩] 0,
               Step.task 0,
               Step.event "up" "down" "h1" [⟨"r1", 1⟩] 69,
               Step.tick 71,
               Step.task 71] initState).sent = [⟨"down", "h1", "r1"⟩]
  ∧ 69 - 0 < delayToNotification 1 :=
  ⟨rfl, by decide⟩

/-- C7, amended: in every prompt-worker execution — the worker
processes each handler's queued schedule/cancel requests before any
later sweep tick runs, excluding the documented cancel/sweep race —
consisting of a down-transition at `t0`, intermediate sweeps no later
than `t1`, an up-transition at `t1` with `t1 - t0` strictly less than
max(1, M) minutes + 10 seconds, and arbitrary sweeps afterwards, no
notification at all (in particular no "down") is ever sent. -/
theorem short_outage_no_down_sent (m : Int) (sys rid : String) (t0 t1 : Nat)
    (mids afters : List Nat) (h01 : t0 ≤ t1) (hmids : ∀ t ∈ mids, t ≤ t1)
    (hshort : t1 - t0 < delayToNotification m) :
    (srun ([SOp.status "down" "up" sys [⟨rid, m⟩] t0]
        ++ mids.map SOp.sweepAt
        ++ [SOp.status "up" "down" sys [⟨rid, m⟩] t1]
        ++ afters.map SOp.sweepAt) initState).sent = [] := by
  have hexp : t1 < t0 + delayToNotification m := by omega
  have e1 : srun [SOp.status "down" "up" sys [⟨rid, m⟩] t0] initState
      = ⟨[(rid, ⟨sys, rid, t0 + delayToNotification m⟩)], [], []⟩ := rfl
  have e2 : ∀ t ∈ mids,
      sweep t (⟨[(rid, ⟨sys, rid, t0 + delayToNotification m⟩)], [], []⟩ : AMState)
        = ⟨[(rid, ⟨sys, rid, t0 + delayToNotification m⟩)], [], []⟩ := by
    intro t ht
    apply sweep_eq_self
    intro p hp
    rcases List.mem_singleton.mp hp with rfl
    have hle := hmids t ht
    show ¬ t0 + delayToNotification m < t
    omega
  have e3 : srun [SOp.status "up" "down" sys [⟨rid, m⟩] t1]
      (⟨[(rid, ⟨sys, rid, t0 + delayToNotification m⟩)], [], []⟩ : AMState) = initState := by
    show drainQueue t1 (HandleStatusAlerts "up" "down" sys [⟨rid, m⟩]
      ⟨[(rid, ⟨sys, rid, t0 + delayToNotification m⟩)], [], []⟩) = initState
    rw [HandleStatusAlerts_up_down,
      handleSystemUp_single_pending sys ⟨rid, m⟩ _
        (by rw [pendingLoad_singleton_self]; rfl)]
    show (⟨pendingDelete [(rid, ⟨sys, rid, t0 + delayToNotification m⟩)] rid, [], []⟩ : AMState)
      = initState
    rw [pendingDelete_singleton_self]
    rfl
  have e4 : srun (afters.map SOp.sweepAt) initState = initState :=
    srun_sweeps_eq afters initState (fun t _ => rfl)
  rw [srun_append, srun_append, srun_append, e1,
    srun_sweeps_eq mids _ e2, e3, e4]
  rfl

/-- C7 witness: minimum 5 minutes, down at 0, sweeps at 100 and 200,
up at 299 (4 m 59 s), a later sweep at 400: zero notifications. -/
theorem short_outage_no_down_sent_witness :
    (srun ([SOp.status "down" "up" "h1" [⟨"r1", 5⟩] 0]
        ++ ([100, 200] : List Nat).map SOp.sweepAt
        ++ [SOp.status "up" "down" "h1" [⟨"r1", 5⟩] 299]
        ++ ([400] : List Nat).map SOp.sweepAt) initState).sent = [] :=
  short_outage_no_down_sent 5 "h1" "r1" 0 299 [100, 200] [400]
    (by decide) (by decide) (by decide)

end Beszel
